import Mathlib

/-!
Verification development for the anidb-rs client-core specification.

The repository ships the public C header (`anidb_client_core/include/anidb.h`),
C examples and the Node.js native binding; the core engine itself (hash
pipeline, cache, scheduler, event system) is declared but its implementation
is not part of the sources, so those components are modelled here from the
specification's own words.  The Node.js binding code
(`bindings/nodejs/src/native/*.cc`) is present and is embedded directly.

Bytes are `Nat` values (producers keep them below 256); 32-bit machine words
are `Nat` reduced modulo `2 ^ 32` at every operation that could overflow.
-/

/- ========================= basic word operations ========================= -/

/-- Reduce a natural number to a 32-bit word. -/
def mask32 (x : Nat) : Nat := x % 4294967296

/-- 32-bit modular addition. -/
def add32 (a b : Nat) : Nat := mask32 (a + b)

/-- Bitwise complement on 32-bit words. -/
def not32 (x : Nat) : Nat := Nat.xor (mask32 x) 4294967295

/-- Left rotation of a 32-bit word by `n` places. -/
def rotl32 (x n : Nat) : Nat :=
  mask32 (Nat.lor (mask32 (Nat.shiftLeft (mask32 x) (n % 32)))
                  (Nat.shiftRight (mask32 x) (32 - n % 32)))

/-- Split a 32-bit word into four bytes, least significant first. -/
def wordToBytesLE (w : Nat) : List Nat :=
  [w % 256, w / 256 % 256, w / 65536 % 256, w / 16777216 % 256]

/-- Split a 32-bit word into four bytes, most significant first. -/
def wordToBytesBE (w : Nat) : List Nat :=
  [w / 16777216 % 256, w / 65536 % 256, w / 256 % 256, w % 256]

/-- Assemble a little-endian 32-bit word from four bytes. -/
def wordOfBytesLE (b0 b1 b2 b3 : Nat) : Nat :=
  mask32 (b0 % 256 + 256 * (b1 % 256) + 65536 * (b2 % 256) + 16777216 * (b3 % 256))

/-- Assemble a big-endian 32-bit word from four bytes. -/
def wordOfBytesBE (b0 b1 b2 b3 : Nat) : Nat :=
  mask32 (b3 % 256 + 256 * (b2 % 256) + 65536 * (b1 % 256) + 16777216 * (b0 % 256))

/-- Group a byte list into little-endian 32-bit words (the list length is a
multiple of four for padded hash blocks). -/
def bytesToWordsLE : List Nat → List Nat
  | b0 :: b1 :: b2 :: b3 :: rest => wordOfBytesLE b0 b1 b2 b3 :: bytesToWordsLE rest
  | _ => []

/-- Group a byte list into big-endian 32-bit words. -/
def bytesToWordsBE : List Nat → List Nat
  | b0 :: b1 :: b2 :: b3 :: rest => wordOfBytesBE b0 b1 b2 b3 :: bytesToWordsBE rest
  | _ => []

/-- Encode a 64-bit quantity as eight bytes, least significant first. -/
def length64LE (n : Nat) : List Nat :=
  [n % 256, n / 256 % 256, n / 65536 % 256, n / 16777216 % 256,
   n / 4294967296 % 256, n / 1099511627776 % 256,
   n / 281474976710656 % 256, n / 72057594037927936 % 256]

/-- Encode a 64-bit quantity as eight bytes, most significant first. -/
def length64BE (n : Nat) : List Nat := (length64LE n).reverse

/- ========================= hex encoding ========================= -/

/-- Lower-case hexadecimal digit for a value below 16. -/
def hexChar (n : Nat) : Char :=
  if n < 10 then Char.ofNat (48 + n) else Char.ofNat (87 + n % 16)

/-- Hex-encode a byte list, two lower-case digits per byte. -/
def hexOfBytes : List Nat → List Char
  | [] => []
  | b :: bs => hexChar (b / 16 % 16) :: hexChar (b % 16) :: hexOfBytes bs

/-- Hex-encoded digest as a `String`. -/
def hexStringOfBytes (bs : List Nat) : String := String.mk (hexOfBytes bs)

/-- Characters allowed in a hex digest. -/
def isHexDigitChar (c : Char) : Bool :=
  ('0' ≤ c ∧ c ≤ '9') ∨ ('a' ≤ c ∧ c ≤ 'f')

/- ========================= chunked reading ========================= -/

/-- Fuel-driven worker for `chunksOf`; the fuel starts at the list length,
which bounds the number of chunks, so the recursion is structural. -/
def chunksOfAux (n : Nat) : Nat → List Nat → List (List Nat)
  | _, [] => []
  | 0, _ :: _ => []
  | fuel + 1, x :: xs => (x :: xs).take n :: chunksOfAux n fuel ((x :: xs).drop n)

/-- Modelled from the spec: the `ChunkReader` component is not among the
sources; per §4.1 it splits a file's bytes into consecutive chunks of a fixed
configurable size. -/
def chunksOf (n : Nat) (l : List Nat) : List (List Nat) :=
  if n = 0 then [] else chunksOfAux n l.length l

/-- Bytes delivered by a sequence of chunks, in order. -/
def joinChunks (cs : List (List Nat)) : List Nat :=
  cs.foldl (fun acc c => acc ++ c) []

/- ========================= CRC32 ========================= -/

/-- One bit step of the reflected CRC-32 (polynomial 0xEDB88320). -/
def crc32BitStep (c : Nat) : Nat :=
  if c % 2 = 1 then Nat.xor (c / 2) 3988292384 else c / 2

/-- Iterate the CRC bit step eight times for one input byte. -/
def crc32Byte (c b : Nat) : Nat :=
  (List.range 8).foldl (fun acc _ => crc32BitStep acc) (Nat.xor (mask32 c) (b % 256))

/-- Modelled from the spec: the core's CRC32 implementation is not among the
sources; per §4.2 it is the standard streaming CRC-32 checksum. -/
def crc32 (data : List Nat) : Nat :=
  Nat.xor (data.foldl crc32Byte 4294967295) 4294967295

/-- CRC32 digest bytes (big-endian, as conventionally printed). -/
def crc32Bytes (data : List Nat) : List Nat := wordToBytesBE (crc32 data)

/- ========================= MD5 ========================= -/

/-- MD5 auxiliary function F. -/
def md5F (b c d : Nat) : Nat := Nat.lor (Nat.land b c) (Nat.land (not32 b) d)

/-- MD5 auxiliary function G. -/
def md5G (b c d : Nat) : Nat := Nat.lor (Nat.land b d) (Nat.land c (not32 d))

/-- MD5 auxiliary function H. -/
def md5H (b c d : Nat) : Nat := Nat.xor b (Nat.xor c d)

/-- MD5 auxiliary function I. -/
def md5I (b c d : Nat) : Nat := Nat.xor c (Nat.lor b (not32 d))

/-- MD5 sine-derived round constants. -/
def md5K : List Nat :=
  [3614090360, 3905402710, 606105819, 3250441966,
   4118548399, 1200080426, 2821735955, 4249261313,
   1770035416, 2336552879, 4294925233, 2304563134,
   1804603682, 4254626195, 2792965006, 1236535329,
   4129170786, 3225465664, 643717713, 3921069994,
   3593408605, 38016083, 3634488961, 3889429448,
   568446438, 3275163606, 4107603335, 1163531501,
   2850285829, 4243563512, 1735328473, 2368359562,
   4294588738, 2272392833, 1839030562, 4259657740,
   2763975236, 1272893353, 4139469664, 3200236656,
   681279174, 3936430074, 3572445317, 76029189,
   3654602809, 3873151461, 530742520, 3299628645,
   4096336452, 1126891415, 2878612391, 4237533241,
   1700485571, 2399980690, 4293915773, 2240044497,
   1873313359, 4264355552, 2734768916, 1309151649,
   4149444226, 3174756917, 718787259, 3951481745]

/-- MD5 per-round left-rotation amounts. -/
def md5S : List Nat :=
  [7, 12, 17, 22, 7, 12, 17, 22, 7, 12, 17, 22, 7, 12, 17, 22,
   5, 9, 14, 20, 5, 9, 14, 20, 5, 9, 14, 20, 5, 9, 14, 20,
   4, 11, 16, 23, 4, 11, 16, 23, 4, 11, 16, 23, 4, 11, 16, 23,
   6, 10, 15, 21, 6, 10, 15, 21, 6, 10, 15, 21, 6, 10, 15, 21]

/-- One MD5 round applied to the state `(a, b, c, d)`. -/
def md5Round (m : List Nat) (st : Nat × Nat × Nat × Nat) (i : Nat) :
    Nat × Nat × Nat × Nat :=
  let (a, b, c, d) := st
  let fg : Nat × Nat :=
    if i < 16 then (md5F b c d, i)
    else if i < 32 then (md5G b c d, (5 * i + 1) % 16)
    else if i < 48 then (md5H b c d, (3 * i + 5) % 16)
    else (md5I b c d, (7 * i) % 16)
  let tmp := add32 (add32 a fg.1) (add32 (md5K.getD i 0) (m.getD fg.2 0))
  (d, add32 b (rotl32 tmp (md5S.getD i 0)), b, c)

/-- MD5 compression of one 64-byte block into the running state. -/
def md5Compress (st : Nat × Nat × Nat × Nat) (block : List Nat) :
    Nat × Nat × Nat × Nat :=
  let m := bytesToWordsLE block
  let r := (List.range 64).foldl (md5Round m) st
  (add32 st.1 r.1, add32 st.2.1 r.2.1, add32 st.2.2.1 r.2.2.1, add32 st.2.2.2 r.2.2.2)

/-- Merkle–Damgård padding with a little-endian 64-bit bit length. -/
def padLE (data : List Nat) : List Nat :=
  data ++ 128 :: List.replicate ((119 - data.length % 64) % 64) 0
       ++ length64LE (8 * data.length % 18446744073709551616)

/-- Modelled from the spec: the core's MD5 implementation is not among the
sources; per §4.2 it is the standard streaming MD5 (RFC 1321). -/
def md5 (data : List Nat) : List Nat :=
  let st := (chunksOf 64 (padLE data)).foldl md5Compress
    (1732584193, 4023233417, 2562383102, 271733878)
  wordToBytesLE st.1 ++ wordToBytesLE st.2.1 ++ wordToBytesLE st.2.2.1
    ++ wordToBytesLE st.2.2.2

/- ========================= MD4 ========================= -/

/-- MD4 auxiliary function F. -/
def md4F (b c d : Nat) : Nat := Nat.lor (Nat.land b c) (Nat.land (not32 b) d)

/-- MD4 auxiliary function G. -/
def md4G (b c d : Nat) : Nat :=
  Nat.lor (Nat.land b c) (Nat.lor (Nat.land b d) (Nat.land c d))

/-- MD4 auxiliary function H. -/
def md4H (b c d : Nat) : Nat := Nat.xor b (Nat.xor c d)

/-- MD4 message-word order across the 48 steps. -/
def md4Idx : List Nat :=
  [0, 1, 2, 3, 4, 5, 6, 7, 8, 9, 10, 11, 12, 13, 14, 15,
   0, 4, 8, 12, 1, 5, 9, 13, 2, 6, 10, 14, 3, 7, 11, 15,
   0, 8, 4, 12, 2, 10, 6, 14, 1, 9, 5, 13, 3, 11, 7, 15]

/-- MD4 per-step left-rotation amounts. -/
def md4S : List Nat :=
  [3, 7, 11, 19, 3, 7, 11, 19, 3, 7, 11, 19, 3, 7, 11, 19,
   3, 5, 9, 13, 3, 5, 9, 13, 3, 5, 9, 13, 3, 5, 9, 13,
   3, 9, 11, 15, 3, 9, 11, 15, 3, 9, 11, 15, 3, 9, 11, 15]

/-- One MD4 step applied to the state `(a, b, c, d)`. -/
def md4Round (m : List Nat) (st : Nat × Nat × Nat × Nat) (i : Nat) :
    Nat × Nat × Nat × Nat :=
  let (a, b, c, d) := st
  let fk : Nat × Nat :=
    if i < 16 then (md4F b c d, 0)
    else if i < 32 then (md4G b c d, 1518500249)
    else (md4H b c d, 1859775393)
  let tmp := add32 (add32 a fk.1) (add32 (m.getD (md4Idx.getD i 0) 0) fk.2)
  (d, rotl32 tmp (md4S.getD i 0), b, c)

/-- MD4 compression of one 64-byte block into the running state. -/
def md4Compress (st : Nat × Nat × Nat × Nat) (block : List Nat) :
    Nat × Nat × Nat × Nat :=
  let m := bytesToWordsLE block
  let r := (List.range 48).foldl (md4Round m) st
  (add32 st.1 r.1, add32 st.2.1 r.2.1, add32 st.2.2.1 r.2.2.1, add32 st.2.2.2 r.2.2.2)

/-- Modelled from the spec: the core's MD4 primitive (underlying ED2K, §4.2
and glossary) is not among the sources; this is the standard MD4 (RFC 1320). -/
def md4 (data : List Nat) : List Nat :=
  let st := (chunksOf 64 (padLE data)).foldl md4Compress
    (1732584193, 4023233417, 2562383102, 271733878)
  wordToBytesLE st.1 ++ wordToBytesLE st.2.1 ++ wordToBytesLE st.2.2.1
    ++ wordToBytesLE st.2.2.2

/- ========================= SHA1 ========================= -/

/-- Extend sixteen SHA1 message words to eighty. -/
def sha1Extend (ws : List Nat) : List Nat :=
  (List.range 64).foldl
    (fun w _ =>
      let n := w.length
      w ++ [rotl32 (Nat.xor (w.getD (n - 3) 0)
              (Nat.xor (w.getD (n - 8) 0)
                (Nat.xor (w.getD (n - 14) 0) (w.getD (n - 16) 0)))) 1])
    ws

/-- SHA1 round function and constant for round `i`. -/
def sha1FK (i b c d : Nat) : Nat × Nat :=
  if i < 20 then (Nat.lor (Nat.land b c) (Nat.land (not32 b) d), 1518500249)
  else if i < 40 then (Nat.xor b (Nat.xor c d), 1859775393)
  else if i < 60 then
    (Nat.lor (Nat.land b c) (Nat.lor (Nat.land b d) (Nat.land c d)), 2400959708)
  else (Nat.xor b (Nat.xor c d), 3395469782)

/-- One SHA1 round applied to the state `(a, b, c, d, e)`. -/
def sha1Round (w : List Nat) (st : Nat × Nat × Nat × Nat × Nat) (i : Nat) :
    Nat × Nat × Nat × Nat × Nat :=
  let (a, b, c, d, e) := st
  let fk := sha1FK i b c d
  let tmp := add32 (add32 (rotl32 a 5) fk.1) (add32 e (add32 fk.2 (w.getD i 0)))
  (tmp, a, rotl32 b 30, c, d)

/-- SHA1 compression of one 64-byte block into the running state. -/
def sha1Compress (st : Nat × Nat × Nat × Nat × Nat) (block : List Nat) :
    Nat × Nat × Nat × Nat × Nat :=
  let w := sha1Extend (bytesToWordsBE block)
  let r := (List.range 80).foldl (sha1Round w) st
  (add32 st.1 r.1, add32 st.2.1 r.2.1, add32 st.2.2.1 r.2.2.1,
   add32 st.2.2.2.1 r.2.2.2.1, add32 st.2.2.2.2 r.2.2.2.2)

/-- Merkle–Damgård padding with a big-endian 64-bit bit length. -/
def padBE (data : List Nat) : List Nat :=
  data ++ 128 :: List.replicate ((119 - data.length % 64) % 64) 0
       ++ length64BE (8 * data.length % 18446744073709551616)

/-- Modelled from the spec: the core's SHA1 implementation is not among the
sources; per §4.2 it is the standard streaming SHA1 (FIPS 180). -/
def sha1 (data : List Nat) : List Nat :=
  let st := (chunksOf 64 (padBE data)).foldl sha1Compress
    (1732584193, 4023233417, 2562383102, 271733878, 3285377520)
  wordToBytesBE st.1 ++ wordToBytesBE st.2.1 ++ wordToBytesBE st.2.2.1
    ++ wordToBytesBE st.2.2.2.1 ++ wordToBytesBE st.2.2.2.2

/- ========================= ED2K ========================= -/

/-- ED2K block size in bytes (spec §4.2: fixed 9,728,000-byte blocks). -/
def ed2kBlockSize : Nat := 9728000

/-- Modelled from the spec: the core's ED2K implementation is not among the
sources; per §4.2 and the glossary it is the block-hash-of-block-hashes
convention over fixed 9,728,000-byte blocks (MD4 of the per-block MD4
digests; data shorter than one block is hashed directly, and a file whose
size is an exact multiple of the block size contributes a trailing
empty-block digest, the original eDonkey convention). -/
def ed2k (data : List Nat) : List Nat :=
  if data.length < ed2kBlockSize then md4 data
  else
    let blockHashes := (chunksOf ed2kBlockSize data).map md4
    let blockHashes :=
      if data.length % ed2kBlockSize = 0 then blockHashes ++ [md4 []]
      else blockHashes
    md4 (joinChunks blockHashes)

/- ========================= TTH ========================= -/

/-- TTH leaf size in bytes (spec §4.2: a fixed leaf size; THEX convention). -/
def tthLeafSize : Nat := 1024

/-- Leaf digests of a TTH Merkle tree: each leaf chunk is hashed with a 0x00
domain-separation prefix; empty input yields the single empty-leaf digest.
The leaf compression function `f` is a parameter (see `tth`). -/
def tthLeaves (f : List Nat → List Nat) (data : List Nat) : List (List Nat) :=
  if data = [] then [f [0]]
  else (chunksOf tthLeafSize data).map (fun c => f (0 :: c))

/-- Combine one level of a TTH Merkle tree pairwise with a 0x01 prefix; an
odd trailing node is promoted unchanged. -/
def tthCombine (f : List Nat → List Nat) : List (List Nat) → List (List Nat)
  | a :: b :: rest => f (1 :: (a ++ b)) :: tthCombine f rest
  | [a] => [a]
  | [] => []

/-- Combining a level at least halves its width (rounding up). -/
theorem tthCombine_length (f : List Nat → List Nat) (hs : List (List Nat)) :
    (tthCombine f hs).length = (hs.length + 1) / 2 := by
  induction hs using tthCombine.induct f <;> simp [tthCombine, *] <;> omega

/-- Fold Merkle levels bottom-up until a single root digest remains. -/
def tthRoot (f : List Nat → List Nat) (hs : List (List Nat)) : List Nat :=
  if h : hs.length ≤ 1 then hs.headD (f [0])
  else tthRoot f (tthCombine f hs)
termination_by hs.length
decreasing_by
  rw [tthCombine_length]
  omega

/-- Modelled from the spec: the core's TTH implementation is not among the
sources; per §4.2 and the glossary it is a Merkle-tree hash over fixed-size
leaves, finalized by combining leaf hashes bottom-up.  The spec does not
specify the leaf compression function (Tiger), so it is taken as the
parameter `f`. -/
def tth (f : List Nat → List Nat) (data : List Nat) : List Nat :=
  tthRoot f (tthLeaves f data)

/- ========================= public API data model ========================= -/

/-- Hash algorithm identifiers (`anidb_hash_algorithm_t`, anidb.h). -/
inductive HashAlg where
  | ed2k
  | crc32
  | md5
  | sha1
  | tth
deriving DecidableEq, Repr

/-- Numeric values of `anidb_hash_algorithm_t` (anidb.h lines 125-140). -/
def algCode : HashAlg → Int
  | .ed2k => 1
  | .crc32 => 2
  | .md5 => 3
  | .sha1 => 4
  | .tth => 5

/-- Result codes (`anidb_result_t`, anidb.h); only the constructors the
claims mention are modelled. -/
inductive AnidbResult where
  | success
  | invalidHandle
  | invalidParameter
  | fileNotFound
  | processing
  | io
  | cancelled
deriving DecidableEq, Repr

/-- Processing status codes (`anidb_status_t`, anidb.h lines 145-160). -/
inductive AnidbStatus where
  | pending
  | processing
  | completed
  | failed
  | cancelled
deriving DecidableEq, Repr

/-- Raw digest of one algorithm over a byte sequence.  The TTH leaf
compression function `f` is a model parameter (see `tth`). -/
def hashBytes (f : List Nat → List Nat) : HashAlg → List Nat → List Nat
  | .ed2k, data => ed2k data
  | .crc32, data => crc32Bytes data
  | .md5, data => md5 data
  | .sha1, data => sha1 data
  | .tth, data => tth f data

/-- Hex digest of one algorithm over a byte sequence. -/
def hashHex (f : List Nat → List Nat) (a : HashAlg) (data : List Nat) : List Char :=
  hexOfBytes (hashBytes f a data)

/-- Length in bytes of each algorithm's raw digest (spec §3: each algorithm
carries a fixed output byte length; TTH/Tiger produces 24 bytes). -/
def digestByteLen : HashAlg → Nat
  | .ed2k => 16
  | .crc32 => 4
  | .md5 => 16
  | .sha1 => 20
  | .tth => 24

/-- Modelled from the spec: `anidb_hash_buffer_size` (anidb.h lines 960-966)
is declared but not implemented in the sources; it returns the required
buffer size in bytes, including the null terminator, i.e. the hex digest
length plus one. -/
def anidb_hash_buffer_size (a : HashAlg) : Nat := 2 * digestByteLen a + 1

/-- Modelled from the spec: `anidb_calculate_hash_buffer` (anidb.h lines
749-765) is not implemented in the sources.  It hashes an in-memory byte
buffer and writes the null-terminated hex string into the caller's buffer,
failing when the buffer is too small; the returned list is the buffer's
contents after the call (bytes past the written region are untouched). -/
def anidb_calculate_hash_buffer (f : List Nat → List Nat) (data : List Nat)
    (a : HashAlg) (buffer : List Char) : Except AnidbResult (List Char) :=
  let hx := hashHex f a data
  if hx.length + 1 ≤ buffer.length then
    .ok (hx ++ [Char.ofNat 0] ++ buffer.drop (hx.length + 1))
  else .error .invalidParameter

/-- File contents and modification time, as the model's view of one
filesystem entry. -/
structure FileData where
  bytes : List Nat
  mtime : Nat
deriving DecidableEq, Repr

/-- Model filesystem: an association of paths to file data. -/
def FS := List (String × FileData)

/-- Look up a path in the model filesystem. -/
def lookupFS (fs : FS) (p : String) : Option FileData :=
  match fs with
  | [] => none
  | (q, fd) :: rest => if q = p then some fd else lookupFS rest p

/-- Modelled from the spec: `anidb_calculate_hash` (anidb.h lines 730-747)
is not implemented in the sources.  It reads the file at `path` and behaves
as `anidb_calculate_hash_buffer` over its contents. -/
def anidb_calculate_hash (f : List Nat → List Nat) (fs : FS) (path : Option String)
    (a : HashAlg) (buffer : List Char) : Except AnidbResult (List Char) :=
  match path with
  | none => .error .invalidParameter
  | some p =>
    match lookupFS fs p with
    | none => .error .fileNotFound
    | some fd => anidb_calculate_hash_buffer f fd.bytes a buffer

/- ========================= hash pipeline ========================= -/

/-- Modelled from the spec: the `HashPipeline` (§4.2) is not among the
sources.  It drives one independent accumulator per requested algorithm over
the same sequence of chunks; each accumulator records the bytes it has been
fed, and finalization hashes them.  Returns one `(algorithm, hex digest)`
pair per requested algorithm, in configured order. -/
def pipelineRun (f : List Nat → List Nat) (algs : List HashAlg)
    (chunks : List (List Nat)) : List (HashAlg × List Char) :=
  (chunks.foldl (fun sts c => sts.map (fun st => (st.1, st.2 ++ c)))
      (algs.map (fun a => (a, ([] : List Nat))))).map
    (fun st => (st.1, hashHex f st.1 st.2))

/- ========================= cache and single-file processing ========================= -/

/-- File identity used as the cache key (spec §3: absolute path, file size,
last-modified timestamp; equal only if all three fields match). -/
structure FileId where
  path : String
  size : Nat
  mtime : Nat
deriving DecidableEq, Repr

/-- One client's hash cache: an association of `(identity, algorithm)` keys
to hex digests, most recent insertion first (spec §4.3; inserts overwrite,
last-writer-wins). -/
structure ClientState where
  cache : List ((FileId × HashAlg) × List Char)
deriving DecidableEq, Repr

/-- Fresh client with an empty cache. -/
def emptyClient : ClientState := ⟨[]⟩

/-- Look up a cached digest for an identity and algorithm. -/
def cacheLookup (cache : List ((FileId × HashAlg) × List Char))
    (id : FileId) (a : HashAlg) : Option (List Char) :=
  match cache with
  | [] => none
  | (k, v) :: rest => if k = (id, a) then some v else cacheLookup rest id a

/-- Structured events (spec §3 and `anidb_event_type_t`); only the variants
the claims mention carry payloads here. -/
inductive Event where
  | fileStart (path : String)
  | fileComplete (path : String)
  | cacheHit (path : String) (a : HashAlg)
  | cacheMiss (path : String) (a : HashAlg)
  | memoryWarning
deriving DecidableEq, Repr

/-- Processing options (`anidb_process_options_t`, anidb.h lines 358-376);
only the fields the claims depend on are modelled. -/
structure ProcOptions where
  algorithms : List HashAlg
deriving DecidableEq, Repr

/-- File processing result (`anidb_file_result_t`, anidb.h lines 395-416). -/
structure FileResultM where
  filePath : String
  fileSize : Nat
  status : AnidbStatus
  hashes : List (HashAlg × List Char)
  errorMessage : Option String
deriving DecidableEq, Repr

/-- Digest resolved for one requested algorithm: the cached value on a hit,
otherwise the value computed by the one-pass pipeline over the missing
algorithms (spec §4.3/§4.2). -/
def procDigest (f : List Nat → List Nat) (cs : ClientState) (chunkSize : Nat)
    (id : FileId) (bytes : List Nat) (algs : List HashAlg) (a : HashAlg) :
    List Char :=
  match cacheLookup cs.cache id a with
  | some h => h
  | none =>
    (((pipelineRun f (algs.filter (fun x => (cacheLookup cs.cache id x).isNone))
        (chunksOf chunkSize bytes)).find? (fun st => st.1 = a)).map (·.2)).getD []

/-- CacheHit/CacheMiss event emitted per requested algorithm (spec §4.3). -/
def procEvents (cs : ClientState) (id : FileId) (p : String)
    (algs : List HashAlg) : List Event :=
  algs.map (fun a =>
    match cacheLookup cs.cache id a with
    | some _ => Event.cacheHit p a
    | none => Event.cacheMiss p a)

/-- Cache after inserting every resolved `(algorithm, digest)` pair for one
file identity (spec §4.3: inserts overwrite, last-writer-wins). -/
def procCache (cs : ClientState) (id : FileId)
    (hashes : List (HashAlg × List Char)) :
    List ((FileId × HashAlg) × List Char) :=
  hashes.foldl (fun c ah => ((id, ah.1), ah.2) :: c) cs.cache

/-- Result, updated client and events of one validated single-file run. -/
def procFileCore (f : List Nat → List Nat) (cs : ClientState) (chunkSize : Nat)
    (p : String) (fd : FileData) (algs : List HashAlg) :
    FileResultM × ClientState × List Event :=
  let id : FileId := ⟨p, fd.bytes.length, fd.mtime⟩
  let hashes := algs.map (fun a => (a, procDigest f cs chunkSize id fd.bytes algs a))
  ({ filePath := p, fileSize := fd.bytes.length,
     status := .completed, hashes := hashes, errorMessage := none },
   ⟨procCache cs id hashes⟩, procEvents cs id p algs)

/-- Modelled from the spec: `anidb_process_file` (anidb.h lines 591-596) is
not implemented in the sources.  Per §4.4 it validates its parameters
synchronously (null path or empty algorithm list is an invalid-parameter
error, rejected before any work starts), resolves each requested algorithm
from the cache (emitting CacheHit/CacheMiss per algorithm, §4.3), computes
all missing digests in one pipeline pass over the file's chunks (§4.2), and
fills the cache with the result. -/
def anidb_process_file (f : List Nat → List Nat) (cs : ClientState) (fs : FS)
    (chunkSize : Nat) (path : Option String) (opts : ProcOptions) :
    Except AnidbResult (FileResultM × ClientState × List Event) :=
  match path with
  | none => .error .invalidParameter
  | some p =>
    if opts.algorithms = [] then .error .invalidParameter
    else
      match lookupFS fs p with
      | none => .error .fileNotFound
      | some fd => .ok (procFileCore f cs chunkSize p fd opts.algorithms)

/- ========================= batch processing ========================= -/

/-- Batch options (`anidb_batch_options_t`, anidb.h lines 444-468); only the
fields the claims depend on are modelled. -/
structure BatchOptions where
  algorithms : List HashAlg
  maxConcurrent : Nat
  continueOnError : Bool
deriving DecidableEq, Repr

/-- Batch result (`anidb_batch_result_t`, anidb.h lines 473-488). -/
structure BatchResultM where
  totalFiles : Nat
  successfulFiles : Nat
  failedFiles : Nat
  results : List FileResultM
deriving DecidableEq, Repr

/-- Modelled from the spec: the human-readable message for each error code
(`anidb_error_string`, anidb.h line 950; §7: every error surfaced to a
caller carries a human-readable message). -/
def anidb_error_string : AnidbResult → String
  | .success => "Success"
  | .invalidHandle => "Invalid handle"
  | .invalidParameter => "Invalid parameter"
  | .fileNotFound => "File not found"
  | .processing => "Processing error"
  | .io => "I/O error"
  | .cancelled => "Operation cancelled"

/-- Per-file result recorded for a failed batch member (spec §4.4: a
per-file failure is captured in that FileResult with its error message). -/
def failedFileResult (p : String) (e : AnidbResult) : FileResultM :=
  { filePath := p, fileSize := 0, status := .failed, hashes := [],
    errorMessage := some (anidb_error_string e) }

/-- Per-file result for a batch member that was never started because an
earlier failure stopped the batch (spec §4.4, `continue_on_error=false`). -/
def cancelledFileResult (p : String) : FileResultM :=
  { filePath := p, fileSize := 0, status := .cancelled, hashes := [],
    errorMessage := none }

/-- Sequential batch loop: processes files in submission order, threading
the client state; `stopped` is set by a failure when `continue_on_error` is
false, after which remaining files are marked Cancelled. -/
def runBatch (f : List Nat → List Nat) (fs : FS) (chunkSize : Nat)
    (opts : BatchOptions) :
    List String → ClientState → Bool → List FileResultM × ClientState
  | [], cs, _ => ([], cs)
  | p :: rest, cs, stopped =>
    if stopped then
      (cancelledFileResult p :: (runBatch f fs chunkSize opts rest cs true).1,
       (runBatch f fs chunkSize opts rest cs true).2)
    else
      match anidb_process_file f cs fs chunkSize (some p) ⟨opts.algorithms⟩ with
      | .ok (r, cs₁, _) =>
        (r :: (runBatch f fs chunkSize opts rest cs₁ false).1,
         (runBatch f fs chunkSize opts rest cs₁ false).2)
      | .error e =>
        (failedFileResult p e ::
          (runBatch f fs chunkSize opts rest cs (!opts.continueOnError)).1,
         (runBatch f fs chunkSize opts rest cs (!opts.continueOnError)).2)

/-- Modelled from the spec: `anidb_process_batch` (anidb.h lines 660-676) is
not implemented in the sources.  Per §4.4 it validates its parameters
synchronously (null path array, empty algorithm list or zero max_concurrent
is an invalid-parameter error before any work starts), then processes the
files in submission order, recording per-file failures without aborting the
batch when `continue_on_error` is set, and aggregates the counts. -/
def anidb_process_batch (f : List Nat → List Nat) (cs : ClientState) (fs : FS)
    (chunkSize : Nat) (paths : Option (List String)) (opts : BatchOptions) :
    Except AnidbResult (BatchResultM × ClientState) :=
  match paths with
  | none => .error .invalidParameter
  | some ps =>
    if opts.algorithms = [] then .error .invalidParameter
    else if opts.maxConcurrent = 0 then .error .invalidParameter
    else
      let rs := (runBatch f fs chunkSize opts ps cs false).1
      .ok ({ totalFiles := ps.length,
             successfulFiles := (rs.filter (fun r => r.status = .completed)).length,
             failedFiles := (rs.filter (fun r => r.status = .failed)).length,
             results := rs }, (runBatch f fs chunkSize opts ps cs false).2)

/- ========================= async operation state machine ========================= -/

/-- Events an async operation emits about itself; `fileComplete` carries the
final status reported with the event. -/
inductive OpEvent where
  | fileStart
  | fileComplete (final : AnidbStatus)
deriving DecidableEq, Repr

/-- State of one async operation: its reported status
(`anidb_operation_get_status`), the cooperative cancellation flag set by
`anidb_operation_cancel`, the chunks still to be read, and the events
emitted so far in order. -/
structure OpState where
  status : AnidbStatus
  cancelRequested : Bool
  chunksLeft : Nat
  events : List OpEvent
deriving DecidableEq, Repr

/-- Initial state of an operation over a file of `n` chunks. -/
def initOp (n : Nat) : OpState :=
  { status := .pending, cancelRequested := false, chunksLeft := n, events := [] }

/-- Modelled from the spec: the async operation lifecycle
(`anidb_process_file_async` / `anidb_operation_cancel`, anidb.h lines
599-654) is not implemented in the sources.  Per §4.4/§5/§8: cancellation is
cooperative — `cancel` on a pending operation transitions it directly to
Cancelled, `cancel` on an already-running operation only sets the flag; the
flag is checked between chunk reads, so an in-flight chunk finishes; a
worker may start a pending, uncancelled operation (emitting FileStart),
process chunks while uncancelled, observe a pending cancellation between
chunks (final status Cancelled), fail on an I/O error, or finish after the
last chunk (emitting FileComplete with status Completed). -/
inductive OpStep : OpState → OpState → Prop where
  | cancelPending (s : OpState) :
      s.status = .pending →
      OpStep s { s with status := .cancelled, cancelRequested := true }
  | cancelActive (s : OpState) :
      s.status ≠ .pending →
      OpStep s { s with cancelRequested := true }
  | start (s : OpState) :
      s.status = .pending → s.cancelRequested = false →
      OpStep s { s with status := .processing,
                        events := s.events ++ [.fileStart] }
  | chunk (s : OpState) (n : Nat) :
      s.status = .processing → s.cancelRequested = false →
      s.chunksLeft = n + 1 →
      OpStep s { s with chunksLeft := n }
  | observeCancel (s : OpState) :
      s.status = .processing → s.cancelRequested = true →
      OpStep s { s with status := .cancelled,
                        events := s.events ++ [.fileComplete .cancelled] }
  | fail (s : OpState) :
      s.status = .processing → s.cancelRequested = false →
      OpStep s { s with status := .failed,
                        events := s.events ++ [.fileComplete .failed] }
  | finish (s : OpState) :
      s.status = .processing → s.cancelRequested = false → s.chunksLeft = 0 →
      OpStep s { s with status := .completed,
                        events := s.events ++ [.fileComplete .completed] }

/-- Reachability along any number of operation steps. -/
def OpReach : OpState → OpState → Prop := Relation.ReflTransGen OpStep

/-- Terminal statuses of an operation. -/
def isFinalStatus (st : AnidbStatus) : Bool :=
  st = AnidbStatus.completed ∨ st = AnidbStatus.failed ∨ st = AnidbStatus.cancelled

/- ========================= event queue ========================= -/

/-- Modelled from the spec: `anidb_event_poll` (anidb.h lines 921-938) is
not implemented in the sources.  Per §4.5 it returns up to `maxEvents`
queued events, oldest first, and drains exactly those from the queue; the
pair is (returned events, remaining queue). -/
def anidb_event_poll (queue : List Event) (maxEvents : Nat) :
    List Event × List Event :=
  (queue.take maxEvents, queue.drop maxEvents)

/- ========================= Node.js binding (utils.cc, client_wrapper.cc) ========================= -/

/-- ASCII lower-casing of one character (`std::tolower` over each byte in
the C locale, utils.cc lines 8-10; only A-Z change, and UTF-8 continuation
bytes are above the ASCII range so per-byte and per-codepoint agree). -/
def lowerChar (c : Char) : Char :=
  if 'A' ≤ c ∧ c ≤ 'Z' then Char.ofNat (c.toNat + 32) else c

/-- Lower-casing of a whole string (utils.cc lines 8-10). -/
def lowerString (s : String) : String := String.mk (s.data.map lowerChar)

/-- `Utils::ParseHashAlgorithm` (utils.cc lines 7-20): lower-case the input,
match the five known names, and default to ED2K for anything else. -/
def ParseHashAlgorithm (algo : String) : HashAlg :=
  let l := lowerString algo
  if l = "ed2k" then .ed2k
  else if l = "crc32" then .crc32
  else if l = "md5" then .md5
  else if l = "sha1" then .sha1
  else if l = "tth" then .tth
  else .ed2k

/-- `Utils::HashAlgorithmToString` (utils.cc lines 22-31). -/
def HashAlgorithmToString : HashAlg → String
  | .ed2k => "ed2k"
  | .crc32 => "crc32"
  | .md5 => "md5"
  | .sha1 => "sha1"
  | .tth => "tth"

/-- Wrap an integer into the `int32_t` range, as
`Napi::Number::Int32Value()` does before the enum cast. -/
def int32wrap (n : Int) : Int := (n + 2147483648) % 4294967296 - 2147483648

/-- JavaScript values as the binding's parsers discriminate them: strings,
numbers, arrays, or anything else. -/
inductive JsValue where
  | str (s : String)
  | num (n : Int)
  | array (elems : List JsValue)
  | other
deriving Repr

/-- `Utils::ParseHashAlgorithms` (utils.cc lines 33-68): a string parses via
`ParseHashAlgorithm`; a number is cast to the enum unchecked; an array keeps
its string and number elements and skips the rest; any other value yields
nothing; an empty collection is replaced by the one-element ED2K default.
Elements are the raw `anidb_hash_algorithm_t` numeric values. -/
def ParseHashAlgorithms (value : JsValue) : List Int :=
  let algorithms : List Int :=
    match value with
    | .str s => [algCode (ParseHashAlgorithm s)]
    | .num n => [int32wrap n]
    | .array elems =>
      elems.filterMap (fun e =>
        match e with
        | .str s => some (algCode (ParseHashAlgorithm s))
        | .num n => some (int32wrap n)
        | _ => none)
    | .other => []
  if algorithms = [] then [algCode .ed2k] else algorithms

/-- `ClientWrapper::ProcessFile` option parsing (client_wrapper.cc lines
139-152): the `algorithms` field contributes only when it is an array, and
only its number elements are kept; an empty collection is replaced by the
one-element ED2K default.  `algorithmsField` is the field's value, or `none`
when the option object has no such field. -/
def wrapperParseAlgorithms (algorithmsField : Option JsValue) : List Int :=
  let algorithms : List Int :=
    match algorithmsField with
    | some (.array elems) =>
      elems.filterMap (fun e =>
        match e with
        | .num n => some (int32wrap n)
        | _ => none)
    | _ => []
  if algorithms = [] then [algCode .ed2k] else algorithms

/- ========================= digest length lemmas ========================= -/

theorem md5_length (data : List Nat) : (md5 data).length = 16 := by
  simp [md5, wordToBytesLE]

theorem md4_length (data : List Nat) : (md4 data).length = 16 := by
  simp [md4, wordToBytesLE]

theorem sha1_length (data : List Nat) : (sha1 data).length = 20 := by
  simp [sha1, wordToBytesBE]

theorem crc32Bytes_length (data : List Nat) : (crc32Bytes data).length = 4 := by
  simp [crc32Bytes, wordToBytesBE]

theorem ed2k_length (data : List Nat) : (ed2k data).length = 16 := by
  unfold ed2k
  split <;> simp [md4_length]

theorem tthCombine_mem_length (f : List Nat → List Nat)
    (hf : ∀ x, (f x).length = 24) (hs : List (List Nat))
    (h : ∀ x ∈ hs, x.length = 24) :
    ∀ x ∈ tthCombine f hs, x.length = 24 := by
  induction hs using tthCombine.induct f with
  | case1 a b rest ih =>
    intro x hx
    rw [tthCombine] at hx
    simp only [List.mem_cons] at hx
    rcases hx with hx | hx
    · rw [hx, hf]
    · exact ih (fun y hy => h y (by simp [hy])) x hx
  | case2 a =>
    intro x hx
    rw [tthCombine] at hx
    simp only [List.mem_singleton] at hx
    rw [hx]
    exact h a (by simp)
  | case3 => intro x hx; simp [tthCombine] at hx

theorem tthRoot_length (f : List Nat → List Nat)
    (hf : ∀ x, (f x).length = 24) (hs : List (List Nat))
    (h : ∀ x ∈ hs, x.length = 24) : (tthRoot f hs).length = 24 := by
  induction hs using tthRoot.induct f with
  | case1 hs hle =>
    rw [tthRoot, dif_pos hle]
    cases hs with
    | nil => exact hf [0]
    | cons a rest => exact h a (by simp)
  | case2 hs hle ih =>
    rw [tthRoot, dif_neg hle]
    exact ih (tthCombine_mem_length f hf hs h)

theorem tth_length (f : List Nat → List Nat)
    (hf : ∀ x, (f x).length = 24) (data : List Nat) :
    (tth f data).length = 24 := by
  refine tthRoot_length f hf _ ?_
  intro x hx
  unfold tthLeaves at hx
  split at hx
  · simp only [List.mem_singleton] at hx
    rw [hx]; exact hf [0]
  · simp only [List.mem_map] at hx
    obtain ⟨c, _, hc⟩ := hx
    rw [← hc]; exact hf _

theorem hashBytes_length (f : List Nat → List Nat)
    (hf : ∀ x, (f x).length = 24) (a : HashAlg) (data : List Nat) :
    (hashBytes f a data).length = digestByteLen a := by
  cases a <;>
    simp [hashBytes, digestByteLen, md5_length, sha1_length, ed2k_length,
      crc32Bytes_length, tth_length f hf]

/- ========================= hex encoding lemmas ========================= -/

theorem hexOfBytes_length (bs : List Nat) :
    (hexOfBytes bs).length = 2 * bs.length := by
  induction bs with
  | nil => rfl
  | cons b rest ih => simp [hexOfBytes, ih]; omega

theorem hashHex_length (f : List Nat → List Nat)
    (hf : ∀ x, (f x).length = 24) (a : HashAlg) (data : List Nat) :
    (hashHex f a data).length = 2 * digestByteLen a := by
  rw [hashHex, hexOfBytes_length, hashBytes_length f hf]

theorem hexChar_isHexDigit (n : Nat) (h : n < 16) :
    isHexDigitChar (hexChar n) = true := by
  interval_cases n <;> decide

theorem hexOfBytes_all_hex (bs : List Nat) :
    ∀ c ∈ hexOfBytes bs, isHexDigitChar c = true := by
  induction bs with
  | nil => intro c hc; simp [hexOfBytes] at hc
  | cons b rest ih =>
    intro c hc
    simp only [hexOfBytes, List.mem_cons] at hc
    rcases hc with hc | hc | hc
    · rw [hc]; exact hexChar_isHexDigit _ (Nat.mod_lt _ (by omega))
    · rw [hc]; exact hexChar_isHexDigit _ (Nat.mod_lt _ (by omega))
    · exact ih c hc

/- ========================= chunking lemmas ========================= -/

theorem joinChunks_nil : joinChunks [] = [] := rfl

theorem foldl_append_eq (cs : List (List Nat)) :
    ∀ acc : List Nat, cs.foldl (fun a c => a ++ c) acc = acc ++ joinChunks cs := by
  induction cs with
  | nil => intro acc; simp [joinChunks]
  | cons c rest ih =>
    intro acc
    simp only [joinChunks, List.foldl_cons] at ih ⊢
    rw [ih (acc ++ c), ih ([] ++ c)]
    simp

theorem joinChunks_cons (c : List Nat) (cs : List (List Nat)) :
    joinChunks (c :: cs) = c ++ joinChunks cs := by
  show List.foldl (fun a c => a ++ c) [] (c :: cs) = c ++ joinChunks cs
  rw [List.foldl_cons, foldl_append_eq]
  simp

theorem chunksOfAux_join (n : Nat) (hn : 0 < n) :
    ∀ (fuel : Nat) (l : List Nat), l.length ≤ fuel →
      joinChunks (chunksOfAux n fuel l) = l := by
  intro fuel
  induction fuel with
  | zero =>
    intro l hl
    cases l with
    | nil => rfl
    | cons x xs => simp at hl
  | succ m ih =>
    intro l hl
    cases l with
    | nil => rfl
    | cons x xs =>
      rw [chunksOfAux, joinChunks_cons, ih]
      · exact List.take_append_drop n (x :: xs)
      · simp only [List.length_drop, List.length_cons]
        simp only [List.length_cons] at hl
        omega

theorem joinChunks_chunksOf (n : Nat) (hn : 0 < n) (l : List Nat) :
    joinChunks (chunksOf n l) = l := by
  rw [chunksOf, if_neg (by omega)]
  exact chunksOfAux_join n hn l.length l le_rfl

/- ========================= pipeline lemmas ========================= -/

theorem pipeline_feed (chunks : List (List Nat)) :
    ∀ sts : List (HashAlg × List Nat),
      chunks.foldl (fun sts c => sts.map (fun st => (st.1, st.2 ++ c))) sts =
        sts.map (fun st => (st.1, st.2 ++ joinChunks chunks)) := by
  induction chunks with
  | nil => intro sts; simp [joinChunks]
  | cons c rest ih =>
    intro sts
    simp only [List.foldl_cons]
    rw [ih, joinChunks_cons, List.map_map]
    apply List.map_congr_left
    intro st _
    simp

theorem pipelineRun_eq (f : List Nat → List Nat) (algs : List HashAlg)
    (chunks : List (List Nat)) :
    pipelineRun f algs chunks =
      algs.map (fun a => (a, hashHex f a (joinChunks chunks))) := by
  rw [pipelineRun, pipeline_feed, List.map_map, List.map_map]
  apply List.map_congr_left
  intro a _
  simp

theorem find_map_value (g : HashAlg → List Char) (algs : List HashAlg)
    (a : HashAlg) (ha : a ∈ algs) :
    ((algs.map (fun x => (x, g x))).find? (fun st => st.1 = a)).map (·.2) =
      some (g a) := by
  induction algs with
  | nil => simp at ha
  | cons b rest ih =>
    by_cases hb : b = a
    · subst hb
      rw [List.map_cons, List.find?_cons_of_pos _ (by simp)]
      simp
    · simp only [List.mem_cons] at ha
      rcases ha with ha | ha
      · exact absurd ha.symm hb
      · rw [List.map_cons, List.find?_cons_of_neg _ (by simp [hb])]
        exact ih ha

/- ========================= empty-input digest values ========================= -/

set_option maxRecDepth 40000 in
theorem md5_empty :
    hexStringOfBytes (md5 []) = "d41d8cd98f00b204e9800998ecf8427e" := by decide

theorem crc32_empty : hexStringOfBytes (crc32Bytes []) = "00000000" := by decide

set_option maxRecDepth 40000 in
theorem ed2k_empty :
    hexStringOfBytes (ed2k []) = "31d6cfe0d16ae931b73c59d7e0c089c0" := by decide

set_option maxRecDepth 40000 in
theorem sha1_empty :
    hexStringOfBytes (sha1 []) = "da39a3ee5e6b4b0d3255bfef95601890afd80709" := by decide

theorem tth_empty (f : List Nat → List Nat) : tth f [] = f [0] := by
  rw [tth, tthLeaves, if_pos rfl, tthRoot, dif_pos (by simp)]
  rfl

/- ========================= buffer write lemmas ========================= -/

theorem calculate_hash_buffer_exact (f : List Nat → List Nat)
    (hf : ∀ x, (f x).length = 24) (a : HashAlg) (buffer : List Char)
    (hbuf : buffer.length = anidb_hash_buffer_size a) (data : List Nat) :
    anidb_calculate_hash_buffer f data a buffer =
      .ok (hashHex f a data ++ [Char.ofNat 0]) := by
  have hlen : (hashHex f a data).length = 2 * digestByteLen a :=
    hashHex_length f hf a data
  rw [anidb_calculate_hash_buffer,
    if_pos (by rw [hlen, hbuf]; rfl),
    List.drop_eq_nil_of_le (by rw [hlen, hbuf]; rfl),
    List.append_nil]

theorem written_buffer_props (f : List Nat → List Nat) (a : HashAlg)
    (data : List Nat) :
    (hashHex f a data ++ [Char.ofNat 0]).getLast? = some (Char.ofNat 0) ∧
    (hashHex f a data ++ [Char.ofNat 0]).dropLast = hashHex f a data ∧
    ∀ c ∈ hashHex f a data, isHexDigitChar c = true := by
  refine ⟨List.getLast?_concat _, List.dropLast_concat .., ?_⟩
  exact hexOfBytes_all_hex _

/- ========================= claims C1 - C3 ========================= -/

/-- C1: for every supported algorithm, `anidb_hash_buffer_size` equals the
hex-digest length plus one, and a successful `anidb_calculate_hash` or
`anidb_calculate_hash_buffer` call into a buffer of exactly that size leaves
the buffer holding a null-terminated hex string, writing nothing past the
end (the returned buffer has the same length). -/
theorem c1_hash_buffer_size_round_trip (f : List Nat → List Nat)
    (hf : ∀ x, (f x).length = 24) (a : HashAlg) (buffer : List Char)
    (hbuf : buffer.length = anidb_hash_buffer_size a) :
    (∀ data : List Nat,
      anidb_hash_buffer_size a = (hashHex f a data).length + 1) ∧
    (∀ data : List Nat, ∃ written : List Char,
      anidb_calculate_hash_buffer f data a buffer = .ok written ∧
      written.length = buffer.length ∧
      written.getLast? = some (Char.ofNat 0) ∧
      ∀ c ∈ written.dropLast, isHexDigitChar c = true) ∧
    (∀ (fs : FS) (path : Option String) (written : List Char),
      anidb_calculate_hash f fs path a buffer = .ok written →
      written.length = buffer.length ∧
      written.getLast? = some (Char.ofNat 0) ∧
      ∀ c ∈ written.dropLast, isHexDigitChar c = true) := by
  have hlen : ∀ data : List Nat, (hashHex f a data).length = 2 * digestByteLen a :=
    fun data => hashHex_length f hf a data
  have key : ∀ data : List Nat,
      anidb_calculate_hash_buffer f data a buffer =
        .ok (hashHex f a data ++ [Char.ofNat 0]) :=
    fun data => calculate_hash_buffer_exact f hf a buffer hbuf data
  have props : ∀ data : List Nat,
      (hashHex f a data ++ [Char.ofNat 0]).length = buffer.length ∧
      (hashHex f a data ++ [Char.ofNat 0]).getLast? = some (Char.ofNat 0) ∧
      ∀ c ∈ (hashHex f a data ++ [Char.ofNat 0]).dropLast,
        isHexDigitChar c = true := by
    intro data
    obtain ⟨h1, h2, h3⟩ := written_buffer_props f a data
    refine ⟨?_, h1, ?_⟩
    · rw [List.length_append, hlen, hbuf]; rfl
    · rw [h2]; exact h3
  refine ⟨?_, ?_, ?_⟩
  · intro data
    rw [hlen]; rfl
  · intro data
    exact ⟨hashHex f a data ++ [Char.ofNat 0], key data, props data⟩
  · intro fs path written hcall
    match path with
    | none => exact absurd hcall (by rw [anidb_calculate_hash]; simp)
    | some p =>
      match hfd : lookupFS fs p with
      | none =>
        have hred : anidb_calculate_hash f fs (some p) a buffer =
            .error .fileNotFound := by rw [anidb_calculate_hash, hfd]
        rw [hred] at hcall
        exact absurd hcall (by simp)
      | some fd =>
        have hred : anidb_calculate_hash f fs (some p) a buffer =
            anidb_calculate_hash_buffer f fd.bytes a buffer := by
          rw [anidb_calculate_hash, hfd]
        rw [hred, key fd.bytes] at hcall
        obtain rfl : hashHex f a fd.bytes ++ [Char.ofNat 0] = written :=
          by injection hcall
        exact props fd.bytes

/-- C1 witness: concrete round trip for CRC32 over empty data into a buffer
of exactly nine characters. -/
theorem c1_witness :
    ∃ written : List Char,
      anidb_calculate_hash_buffer (fun _ => List.replicate 24 0) []
        HashAlg.crc32 (List.replicate 9 'x') = .ok written ∧
      written.length = (List.replicate 9 'x').length ∧
      written.getLast? = some (Char.ofNat 0) ∧
      ∀ c ∈ written.dropLast, isHexDigitChar c = true :=
  ((c1_hash_buffer_size_round_trip (fun _ => List.replicate 24 0)
    (fun _ => by simp) HashAlg.crc32 (List.replicate 9 'x') (by decide)).2.1) []

/-- C2: hashing an empty input succeeds for every supported algorithm with a
correctly sized buffer (both the file path and the in-memory entry points),
and produces the well-known empty-input digests: ED2K, CRC32, MD5 and SHA1
yield their standard constants, and TTH yields the digest of the single
empty leaf under the model's leaf compression function. -/
theorem c2_empty_input_digests (f : List Nat → List Nat)
    (hf : ∀ x, (f x).length = 24) (a : HashAlg) (buffer : List Char)
    (hbuf : buffer.length = anidb_hash_buffer_size a)
    (fs : FS) (p : String) (t : Nat) (hfs : lookupFS fs p = some ⟨[], t⟩) :
    anidb_calculate_hash_buffer f [] a buffer =
      .ok (hashHex f a [] ++ [Char.ofNat 0]) ∧
    anidb_calculate_hash f fs (some p) a buffer =
      .ok (hashHex f a [] ++ [Char.ofNat 0]) ∧
    hexStringOfBytes (hashBytes f .md5 []) = "d41d8cd98f00b204e9800998ecf8427e" ∧
    hexStringOfBytes (hashBytes f .crc32 []) = "00000000" ∧
    hexStringOfBytes (hashBytes f .ed2k []) = "31d6cfe0d16ae931b73c59d7e0c089c0" ∧
    hexStringOfBytes (hashBytes f .sha1 []) =
      "da39a3ee5e6b4b0d3255bfef95601890afd80709" ∧
    hashBytes f .tth [] = f [0] := by
  have key := calculate_hash_buffer_exact f hf a buffer hbuf []
  refine ⟨key, ?_, md5_empty, crc32_empty, ed2k_empty, sha1_empty,
    tth_empty f⟩
  rw [anidb_calculate_hash, hfs]
  exact key

/-- C2 witness: concrete empty-input MD5 via the in-memory entry point and
via a one-file filesystem. -/
theorem c2_witness :
    anidb_calculate_hash (fun _ => List.replicate 24 0) [("e", ⟨[], 0⟩)]
      (some "e") HashAlg.md5 (List.replicate 33 'x') =
      .ok (hashHex (fun _ => List.replicate 24 0) HashAlg.md5 []
        ++ [Char.ofNat 0]) :=
  (c2_empty_input_digests (fun _ => List.replicate 24 0) (fun _ => by simp)
    HashAlg.md5 (List.replicate 33 'x') (by decide)
    [("e", ⟨[], 0⟩)] "e" 0 (by decide)).2.1

/-- C3: null path, an empty algorithm list, or zero `max_concurrent` make
`anidb_process_file` and `anidb_process_batch` return
`ANIDB_ERROR_INVALID_PARAMETER` for every filesystem (so before any file is
read) and produce no result object. -/
theorem c3_invalid_parameter_rejection (f : List Nat → List Nat)
    (cs : ClientState) (chunkSize : Nat) (opts : ProcOptions)
    (bopts : BatchOptions) :
    (∀ fs : FS,
      anidb_process_file f cs fs chunkSize none opts =
        .error .invalidParameter) ∧
    (∀ (fs : FS) (p : String), opts.algorithms = [] →
      anidb_process_file f cs fs chunkSize (some p) opts =
        .error .invalidParameter) ∧
    (∀ fs : FS,
      anidb_process_batch f cs fs chunkSize none bopts =
        .error .invalidParameter) ∧
    (∀ (fs : FS) (ps : List String), bopts.algorithms = [] →
      anidb_process_batch f cs fs chunkSize (some ps) bopts =
        .error .invalidParameter) ∧
    (∀ (fs : FS) (ps : List String), bopts.maxConcurrent = 0 →
      anidb_process_batch f cs fs chunkSize (some ps) bopts =
        .error .invalidParameter) := by
  refine ⟨fun fs => rfl, ?_, fun fs => rfl, ?_, ?_⟩
  · intro fs p h
    rw [anidb_process_file, if_pos h]
  · intro fs ps h
    rw [anidb_process_batch, if_pos h]
  · intro fs ps h
    rw [anidb_process_batch]
    by_cases ha : bopts.algorithms = []
    · rw [if_pos ha]
    · rw [if_neg ha, if_pos h]

/-- C3 witness: concrete rejections of an empty algorithm list and a zero
`max_concurrent`. -/
theorem c3_witness :
    anidb_process_file (fun _ => []) emptyClient [] 64 (some "x") ⟨[]⟩ =
      .error .invalidParameter ∧
    anidb_process_batch (fun _ => []) emptyClient [] 64 (some ["x"])
      ⟨[.md5], 0, true⟩ = .error .invalidParameter :=
  ⟨(c3_invalid_parameter_rejection (fun _ => []) emptyClient 64 ⟨[]⟩
      ⟨[.md5], 0, true⟩).2.1 [] "x" rfl,
   (c3_invalid_parameter_rejection (fun _ => []) emptyClient 64 ⟨[]⟩
      ⟨[.md5], 0, true⟩).2.2.2.2 [] ["x"] rfl⟩

/- ========================= single-file processing lemmas ========================= -/

theorem cacheLookup_nil (id : FileId) (a : HashAlg) :
    cacheLookup [] id a = none := rfl

theorem processFile_some (f : List Nat → List Nat) (cs : ClientState)
    (fs : FS) (n : Nat) (p : String) (fd : FileData) (opts : ProcOptions)
    (hfs : lookupFS fs p = some fd) (halgs : opts.algorithms ≠ []) :
    anidb_process_file f cs fs n (some p) opts =
      .ok (procFileCore f cs n p fd opts.algorithms) := by
  rw [anidb_process_file, if_neg halgs, hfs]

theorem procDigest_eq (f : List Nat → List Nat) (cs : ClientState) (n : Nat)
    (id : FileId) (bytes : List Nat) (algs : List HashAlg) (a : HashAlg)
    (hn : 0 < n) (ha : a ∈ algs) :
    procDigest f cs n id bytes algs a =
      match cacheLookup cs.cache id a with
      | some h => h
      | none => hashHex f a bytes := by
  rw [procDigest]
  cases hcl : cacheLookup cs.cache id a with
  | some h => rfl
  | none =>
    have hmem : a ∈ algs.filter (fun x => (cacheLookup cs.cache id x).isNone) :=
      List.mem_filter.mpr ⟨ha, by rw [hcl]; rfl⟩
    simp only [pipelineRun_eq, joinChunks_chunksOf n hn]
    rw [find_map_value (fun x => hashHex f x bytes) _ a hmem]
    rfl

/- ========================= claim C4 ========================= -/

/-- C4: a single `anidb_process_file` pass with the algorithm set
{ED2K, CRC32, MD5, SHA1} over a fresh client records, for each algorithm,
exactly the digest that a lone `anidb_calculate_hash` call for that
algorithm produces over the same file contents. -/
theorem c4_one_pass_cross_consistency (f : List Nat → List Nat)
    (fs : FS) (p : String) (fd : FileData) (n : Nat)
    (hn : 0 < n) (hfs : lookupFS fs p = some fd)
    (r : FileResultM) (cs₁ : ClientState) (ev : List Event)
    (hrun : anidb_process_file f emptyClient fs n (some p)
      ⟨[.ed2k, .crc32, .md5, .sha1]⟩ = .ok (r, cs₁, ev)) :
    r.hashes = ([.ed2k, .crc32, .md5, .sha1] : List HashAlg).map
      (fun a => (a, hashHex f a fd.bytes)) ∧
    ∀ a ∈ ([.ed2k, .crc32, .md5, .sha1] : List HashAlg),
      ∀ buffer : List Char, (hashHex f a fd.bytes).length + 1 ≤ buffer.length →
        anidb_calculate_hash f fs (some p) a buffer =
          .ok (hashHex f a fd.bytes ++ [Char.ofNat 0]
            ++ buffer.drop ((hashHex f a fd.bytes).length + 1)) := by
  constructor
  · rw [processFile_some f emptyClient fs n p fd _ hfs (by simp)] at hrun
    have hr : r = (procFileCore f emptyClient n p fd
        [.ed2k, .crc32, .md5, .sha1]).1 := by
      have := congrArg (fun x : Except AnidbResult
        (FileResultM × ClientState × List Event) =>
          match x with
          | .ok y => y.1
          | .error _ => r) hrun
      exact this.symm
    rw [hr, procFileCore]
    apply List.map_congr_left
    intro a ha
    rw [procDigest_eq f emptyClient n _ fd.bytes _ a hn ha]
    simp [emptyClient, cacheLookup_nil]
  · intro a _ buffer hb
    have hred : anidb_calculate_hash f fs (some p) a buffer =
        anidb_calculate_hash_buffer f fd.bytes a buffer := by
      rw [anidb_calculate_hash, hfs]
    rw [hred, anidb_calculate_hash_buffer, if_pos hb]

/-- C4 witness: concrete one-pass run over a two-byte file with chunk size
one, matched against the independent single-hash calls. -/
theorem c4_witness :
    ∃ (r : FileResultM) (cs₁ : ClientState) (ev : List Event),
      anidb_process_file (fun _ => List.replicate 24 0) emptyClient
        [("g", ⟨[97, 98], 5⟩)] 1 (some "g") ⟨[.ed2k, .crc32, .md5, .sha1]⟩ =
        .ok (r, cs₁, ev) ∧
      r.hashes = ([.ed2k, .crc32, .md5, .sha1] : List HashAlg).map
        (fun a => (a, hashHex (fun _ => List.replicate 24 0) a [97, 98])) := by
  set f : List Nat → List Nat := fun _ => List.replicate 24 0 with hf
  obtain ⟨r, cs₁, ev, hrun⟩ : ∃ r cs₁ ev,
      anidb_process_file f emptyClient [("g", ⟨[97, 98], 5⟩)] 1 (some "g")
        ⟨[.ed2k, .crc32, .md5, .sha1]⟩ = .ok (r, cs₁, ev) := by
    rw [processFile_some f emptyClient _ 1 "g" ⟨[97, 98], 5⟩ _ (by decide)
      (by simp)]
    exact ⟨_, _, _, rfl⟩
  exact ⟨r, cs₁, ev, hrun,
    (c4_one_pass_cross_consistency f [("g", ⟨[97, 98], 5⟩)] "g" ⟨[97, 98], 5⟩ 1
      (by decide) (by decide) r cs₁ ev hrun).1⟩

/- ========================= cache fold lemmas ========================= -/

theorem processFile_empty_algs (f : List Nat → List Nat) (cs : ClientState)
    (fs : FS) (n : Nat) (p : String) (opts : ProcOptions)
    (h : opts.algorithms = []) :
    anidb_process_file f cs fs n (some p) opts = .error .invalidParameter := by
  rw [anidb_process_file, if_pos h]

theorem cacheLookup_foldl_not_mem (id : FileId) (g : HashAlg → List Char)
    (a : HashAlg) :
    ∀ rest : List HashAlg, a ∉ rest →
      ∀ base : List ((FileId × HashAlg) × List Char),
        cacheLookup ((rest.map (fun x => (x, g x))).foldl
          (fun c ah => ((id, ah.1), ah.2) :: c) base) id a =
          cacheLookup base id a := by
  intro rest
  induction rest with
  | nil => intro _ base; rfl
  | cons x xs ih =>
    intro hna base
    simp only [List.map_cons, List.foldl_cons]
    rw [ih (fun h => hna (List.mem_cons_of_mem x h))]
    show cacheLookup (((id, x), g x) :: base) id a = cacheLookup base id a
    rw [cacheLookup, if_neg]
    intro h
    have hx : x = a := congrArg Prod.snd h
    exact hna (List.mem_cons.mpr (Or.inl hx.symm))

theorem cacheLookup_foldl_mem (id : FileId) (g : HashAlg → List Char)
    (a : HashAlg) :
    ∀ algs : List HashAlg, a ∈ algs →
      ∀ base : List ((FileId × HashAlg) × List Char),
        cacheLookup ((algs.map (fun x => (x, g x))).foldl
          (fun c ah => ((id, ah.1), ah.2) :: c) base) id a = some (g a) := by
  intro algs
  induction algs with
  | nil => intro ha; exact absurd ha (List.not_mem_nil a)
  | cons x xs ih =>
    intro ha base
    simp only [List.map_cons, List.foldl_cons]
    by_cases hmem : a ∈ xs
    · exact ih hmem _
    · have hx : x = a := by
        rcases List.mem_cons.mp ha with h | h
        · exact h.symm
        · exact absurd h hmem
      rw [cacheLookup_foldl_not_mem id g a xs hmem]
      show cacheLookup (((id, x), g x) :: base) id a = some (g a)
      rw [cacheLookup, if_pos (by rw [hx]), hx]

theorem cacheLookup_procCache (cs : ClientState) (id : FileId)
    (g : HashAlg → List Char) (algs : List HashAlg) (a : HashAlg)
    (ha : a ∈ algs) :
    cacheLookup (procCache cs id (algs.map (fun x => (x, g x)))) id a =
      some (g a) := by
  rw [procCache]
  exact cacheLookup_foldl_mem id g a algs ha cs.cache

/- ========================= claim C5 ========================= -/

/-- C5: processing a file twice with the same algorithms while its identity
(path, size, modification time) is unchanged makes the second call emit a
CacheHit event for every requested algorithm and return digests identical to
the first call's. -/
theorem c5_cache_idempotence (f : List Nat → List Nat) (cs : ClientState)
    (fs fs' : FS) (n : Nat) (p : String) (opts : ProcOptions)
    (fd fd' : FileData)
    (hfd : lookupFS fs p = some fd) (hfd' : lookupFS fs' p = some fd')
    (hsize : fd'.bytes.length = fd.bytes.length)
    (hmtime : fd'.mtime = fd.mtime)
    (r : FileResultM) (cs₁ : ClientState) (ev₁ : List Event)
    (hrun : anidb_process_file f cs fs n (some p) opts = .ok (r, cs₁, ev₁)) :
    ∃ (r₂ : FileResultM) (cs₂ : ClientState),
      anidb_process_file f cs₁ fs' n (some p) opts =
        .ok (r₂, cs₂, opts.algorithms.map (fun a => Event.cacheHit p a)) ∧
      r₂.hashes = r.hashes := by
  have halgs : opts.algorithms ≠ [] := by
    intro h
    rw [processFile_empty_algs f cs fs n p opts h] at hrun
    exact absurd hrun (by simp)
  rw [processFile_some f cs fs n p fd opts hfd halgs] at hrun
  injection hrun with h
  rw [procFileCore] at h
  injection h with hr h23
  injection h23 with hcs hev
  have hcache : cs₁.cache = procCache cs ⟨p, fd.bytes.length, fd.mtime⟩
      (opts.algorithms.map (fun a => (a, procDigest f cs n
        ⟨p, fd.bytes.length, fd.mtime⟩ fd.bytes opts.algorithms a))) := by
    rw [← hcs]
  have hlookup : ∀ a ∈ opts.algorithms,
      cacheLookup cs₁.cache ⟨p, fd'.bytes.length, fd'.mtime⟩ a =
        some (procDigest f cs n ⟨p, fd.bytes.length, fd.mtime⟩ fd.bytes
          opts.algorithms a) := by
    intro a ha
    rw [hsize, hmtime, hcache]
    exact cacheLookup_procCache cs _ _ opts.algorithms a ha
  refine ⟨(procFileCore f cs₁ n p fd' opts.algorithms).1,
          (procFileCore f cs₁ n p fd' opts.algorithms).2.1, ?_, ?_⟩
  · rw [processFile_some f cs₁ fs' n p fd' opts hfd' halgs]
    refine congrArg Except.ok (Prod.ext rfl (Prod.ext rfl ?_))
    show procEvents cs₁ ⟨p, fd'.bytes.length, fd'.mtime⟩ p opts.algorithms =
      opts.algorithms.map (fun a => Event.cacheHit p a)
    rw [procEvents]
    apply List.map_congr_left
    intro a ha
    rw [hlookup a ha]
  · show (procFileCore f cs₁ n p fd' opts.algorithms).1.hashes = r.hashes
    rw [← hr]
    show (opts.algorithms.map (fun a => (a, procDigest f cs₁ n
        ⟨p, fd'.bytes.length, fd'.mtime⟩ fd'.bytes opts.algorithms a))) = _
    apply List.map_congr_left
    intro a ha
    rw [procDigest, hlookup a ha]

/-- C5 witness: concrete double run over an unchanged empty file with CRC32;
the second run is a cache hit with the same digest. -/
theorem c5_witness :
    ∃ (r₂ : FileResultM) (cs₂ : ClientState),
      anidb_process_file (fun _ => List.replicate 24 0)
        ⟨[((⟨"f", 0, 3⟩, HashAlg.crc32), ['0','0','0','0','0','0','0','0'])]⟩
        [("f", ⟨[], 3⟩)] 64 (some "f") ⟨[.crc32]⟩ =
        .ok (r₂, cs₂, [Event.cacheHit "f" HashAlg.crc32]) ∧
      r₂.hashes = [(HashAlg.crc32, ['0','0','0','0','0','0','0','0'])] := by
  obtain ⟨r₂, cs₂, hcall, hh⟩ := c5_cache_idempotence
    (fun _ => List.replicate 24 0) emptyClient
    [("f", ⟨[], 3⟩)] [("f", ⟨[], 3⟩)] 64 "f" ⟨[.crc32]⟩ ⟨[], 3⟩ ⟨[], 3⟩
    (by decide) (by decide) rfl rfl
    { filePath := "f", fileSize := 0, status := .completed,
      hashes := [(HashAlg.crc32, ['0','0','0','0','0','0','0','0'])],
      errorMessage := none }
    ⟨[((⟨"f", 0, 3⟩, HashAlg.crc32), ['0','0','0','0','0','0','0','0'])]⟩
    [Event.cacheMiss "f" HashAlg.crc32] rfl
  exact ⟨r₂, cs₂, hcall, hh⟩

/- ========================= batch lemmas ========================= -/

theorem processFile_ok_fields (f : List Nat → List Nat) (cs : ClientState)
    (fs : FS) (n : Nat) (path : Option String) (opts : ProcOptions)
    (r : FileResultM) (cs' : ClientState) (ev : List Event)
    (h : anidb_process_file f cs fs n path opts = .ok (r, cs', ev)) :
    r.status = .completed ∧ r.errorMessage = none := by
  match path with
  | none => exact absurd h (by simp [anidb_process_file])
  | some p =>
    by_cases halgs : opts.algorithms = []
    · rw [processFile_empty_algs f cs fs n p opts halgs] at h
      exact absurd h (by simp)
    · match hfd : lookupFS fs p with
      | none =>
        have hred : anidb_process_file f cs fs n (some p) opts =
            .error .fileNotFound := by
          rw [anidb_process_file, if_neg halgs, hfd]
        rw [hred] at h
        exact absurd h (by simp)
      | some fd =>
        rw [processFile_some f cs fs n p fd opts hfd halgs] at h
        injection h with h
        rw [procFileCore] at h
        injection h with hr _
        rw [← hr]
        exact ⟨rfl, rfl⟩

theorem runBatch_length (f : List Nat → List Nat) (fs : FS) (n : Nat)
    (opts : BatchOptions) :
    ∀ (ps : List String) (cs : ClientState) (stopped : Bool),
      (runBatch f fs n opts ps cs stopped).1.length = ps.length := by
  intro ps
  induction ps with
  | nil => intro cs stopped; rfl
  | cons p rest ih =>
    intro cs stopped
    rw [runBatch]
    split
    · simp [ih]
    · split
      · simp [ih]
      · simp [ih]

theorem runBatch_status (f : List Nat → List Nat) (fs : FS) (n : Nat)
    (opts : BatchOptions) (hc : opts.continueOnError = true) :
    ∀ (ps : List String) (cs : ClientState),
      ∀ r ∈ (runBatch f fs n opts ps cs false).1,
        r.status = .completed ∨
        (r.status = .failed ∧
          ∃ e : AnidbResult, r.errorMessage = some (anidb_error_string e)) := by
  intro ps
  induction ps with
  | nil => intro cs r hr; simp [runBatch] at hr
  | cons p rest ih =>
    intro cs r hr
    rw [runBatch] at hr
    rw [if_neg (by simp)] at hr
    split at hr
    case h_1 r' cs₁ ev heq =>
      rcases List.mem_cons.mp hr with hhd | htl
      · left
        rw [hhd]
        exact (processFile_ok_fields f cs fs n (some p) ⟨opts.algorithms⟩
          r' cs₁ ev heq).1
      · exact ih cs₁ r htl
    case h_2 e heq =>
      rcases List.mem_cons.mp hr with hhd | htl
      · right
        rw [hhd]
        exact ⟨rfl, e, rfl⟩
      · rw [hc] at htl
        exact ih cs r htl

theorem count_completed_failed :
    ∀ rs : List FileResultM,
      (∀ r ∈ rs, r.status = .completed ∨ r.status = .failed) →
      (rs.filter (fun r => r.status = .completed)).length +
        (rs.filter (fun r => r.status = .failed)).length = rs.length := by
  intro rs
  induction rs with
  | nil => intro _; rfl
  | cons r rest ih =>
    intro h
    have hrest := ih (fun x hx => h x (List.mem_cons_of_mem r hx))
    rcases h r (List.mem_cons_self r rest) with hr | hr <;>
      simp [List.filter_cons, hr] <;> omega

theorem anidb_error_string_ne (e : AnidbResult) : anidb_error_string e ≠ "" := by
  cases e <;> simp [anidb_error_string]

/- ========================= claim C6 ========================= -/

/-- C6: a batch run with `continue_on_error = true` over any file list
returns success with counts satisfying
`successful_files + failed_files = total_files = N`, and every failed file
result carries a non-empty error message. -/
theorem c6_batch_counts (f : List Nat → List Nat) (cs : ClientState)
    (fs : FS) (n : Nat) (ps : List String) (opts : BatchOptions)
    (hc : opts.continueOnError = true) (hmc : opts.maxConcurrent ≠ 0)
    (halg : opts.algorithms ≠ []) :
    ∃ (br : BatchResultM) (cs' : ClientState),
      anidb_process_batch f cs fs n (some ps) opts = .ok (br, cs') ∧
      br.totalFiles = ps.length ∧
      br.results.length = ps.length ∧
      br.successfulFiles + br.failedFiles = br.totalFiles ∧
      ∀ r ∈ br.results, r.status = .failed →
        ∃ m : String, r.errorMessage = some m ∧ m ≠ "" := by
  have hstat := runBatch_status f fs n opts hc ps cs
  have hcall : anidb_process_batch f cs fs n (some ps) opts =
      .ok ({ totalFiles := ps.length,
             successfulFiles := ((runBatch f fs n opts ps cs false).1.filter
               (fun r => r.status = .completed)).length,
             failedFiles := ((runBatch f fs n opts ps cs false).1.filter
               (fun r => r.status = .failed)).length,
             results := (runBatch f fs n opts ps cs false).1 },
           (runBatch f fs n opts ps cs false).2) := by
    rw [anidb_process_batch, if_neg halg, if_neg hmc]
  refine ⟨_, _, hcall, rfl, runBatch_length f fs n opts ps cs false, ?_, ?_⟩
  · show (((runBatch f fs n opts ps cs false).1.filter
        (fun r => r.status = .completed)).length) +
      (((runBatch f fs n opts ps cs false).1.filter
        (fun r => r.status = .failed)).length) = ps.length
    rw [count_completed_failed _ (fun r hr => (hstat r hr).imp id And.left)]
    exact runBatch_length f fs n opts ps cs false
  · intro r hr hfail
    rcases hstat r hr with hcomp | ⟨_, e, hmsg⟩
    · rw [hcomp] at hfail
      exact absurd hfail (by simp)
    · exact ⟨anidb_error_string e, hmsg, anidb_error_string_ne e⟩

/-- C6 witness: a two-file batch where one file is missing: the batch itself
succeeds, the counts add up, and the failed file carries a message. -/
theorem c6_witness :
    ∃ (br : BatchResultM) (cs' : ClientState),
      anidb_process_batch (fun _ => List.replicate 24 0) emptyClient
        [("a", ⟨[], 0⟩)] 64 (some ["a", "missing"])
        ⟨[.crc32], 2, true⟩ = .ok (br, cs') ∧
      br.totalFiles = 2 ∧
      br.results.length = 2 ∧
      br.successfulFiles + br.failedFiles = br.totalFiles ∧
      ∀ r ∈ br.results, r.status = .failed →
        ∃ m : String, r.errorMessage = some m ∧ m ≠ "" := by
  obtain ⟨br, cs', h1, h2, h3, h4, h5⟩ := c6_batch_counts
    (fun _ => List.replicate 24 0) emptyClient [("a", ⟨[], 0⟩)] 64
    ["a", "missing"] ⟨[.crc32], 2, true⟩ rfl (by decide) (by decide)
  exact ⟨br, cs', h1, h2, h3, h4, h5⟩

/- ========================= operation machine lemmas ========================= -/

theorem opStep_invariant (s t : OpState) (h : OpStep s t)
    (hc : s.cancelRequested = true) :
    t.cancelRequested = true ∧
    (OpEvent.fileStart ∉ s.events → OpEvent.fileStart ∉ t.events) ∧
    (OpEvent.fileComplete .completed ∉ s.events →
      OpEvent.fileComplete .completed ∉ t.events) ∧
    (s.status ≠ .completed → t.status ≠ .completed) ∧
    ((s.status = .processing ∨ s.status = .cancelled) →
      (t.status = .processing ∨ t.status = .cancelled)) := by
  cases h with
  | cancelPending hp =>
    exact ⟨rfl, fun h => h, fun h => h, fun _ => by simp, fun _ => Or.inr rfl⟩
  | cancelActive hp =>
    exact ⟨rfl, fun h => h, fun h => h, fun h => h, fun h => h⟩
  | start hp hflag => rw [hc] at hflag; exact absurd hflag (by simp)
  | chunk m hp hflag hn => rw [hc] at hflag; exact absurd hflag (by simp)
  | observeCancel hp hflag =>
    refine ⟨hc, ?_, ?_, fun _ => by simp, fun _ => Or.inr rfl⟩
    · intro hno hmem
      simp only [List.mem_append, List.mem_singleton] at hmem
      rcases hmem with hmem | hmem
      · exact hno hmem
      · exact absurd hmem (by simp)
    · intro hno hmem
      simp only [List.mem_append, List.mem_singleton] at hmem
      rcases hmem with hmem | hmem
      · exact hno hmem
      · exact absurd hmem (by simp)
  | fail hp hflag => rw [hc] at hflag; exact absurd hflag (by simp)
  | finish hp hflag hn => rw [hc] at hflag; exact absurd hflag (by simp)

theorem opReach_invariant (s t : OpState) (h : OpReach s t)
    (hc : s.cancelRequested = true) :
    t.cancelRequested = true ∧
    (OpEvent.fileStart ∉ s.events → OpEvent.fileStart ∉ t.events) ∧
    (OpEvent.fileComplete .completed ∉ s.events →
      OpEvent.fileComplete .completed ∉ t.events) ∧
    (s.status ≠ .completed → t.status ≠ .completed) ∧
    ((s.status = .processing ∨ s.status = .cancelled) →
      (t.status = .processing ∨ t.status = .cancelled)) := by
  induction h with
  | refl => exact ⟨hc, fun h => h, fun h => h, fun h => h, fun h => h⟩
  | tail hab hbc ih =>
    obtain ⟨ih1, ih2, ih3, ih4, ih5⟩ := ih
    obtain ⟨h1, h2, h3, h4, h5⟩ := opStep_invariant _ _ hbc ih1
    exact ⟨h1, fun hh => h2 (ih2 hh), fun hh => h3 (ih3 hh),
      fun hh => h4 (ih4 hh), fun hh => h5 (ih5 hh)⟩

theorem opReach_pending_events (n : Nat) (s : OpState)
    (h : OpReach (initOp n) s) : s.status = .pending → s.events = [] := by
  induction h with
  | refl => intro _; rfl
  | tail hab hbc ih =>
    intro hp
    cases hbc with
    | cancelPending hps => exact absurd hp (by simp)
    | cancelActive hps => exact ih hp
    | start hps hflag => exact absurd hp (by simp)
    | chunk m hps hflag hn =>
      simp only at hp
      rw [hps] at hp
      exact absurd hp (by simp)
    | observeCancel hps hflag => exact absurd hp (by simp)
    | fail hps hflag => exact absurd hp (by simp)
    | finish hps hflag hn => exact absurd hp (by simp)

/- ========================= claim C7 ========================= -/

/-- C7: cancelling a still-pending operation transitions it directly to
Cancelled, after which no FileStart is ever emitted and Completed is
unreachable; cancelling a running operation leaves a transition observing
the cancellation between chunks, and from the moment the flag is set the
operation can never reach status Completed, never emits a FileComplete with
status Completed, and every terminal status it reaches is Cancelled. -/
theorem c7_cancellation_semantics (n : Nat) (s₀ : OpState) :
    (OpReach (initOp n) s₀ → s₀.status = .pending →
      OpStep s₀ { s₀ with status := .cancelled, cancelRequested := true } ∧
      ∀ s₁ : OpState,
        OpReach { s₀ with status := .cancelled, cancelRequested := true } s₁ →
          OpEvent.fileStart ∉ s₁.events ∧
          s₁.status ≠ .completed ∧
          OpEvent.fileComplete .completed ∉ s₁.events) ∧
    (s₀.status = .processing → s₀.cancelRequested = true →
      OpStep s₀ { s₀ with status := .cancelled,
                          events := s₀.events ++ [.fileComplete .cancelled] } ∧
      ∀ s₁ : OpState, OpReach s₀ s₁ →
        s₁.status ≠ .completed ∧
        (OpEvent.fileComplete .completed ∉ s₀.events →
          OpEvent.fileComplete .completed ∉ s₁.events) ∧
        (isFinalStatus s₁.status = true → s₁.status = .cancelled)) := by
  constructor
  · intro hreach hpend
    have hev : s₀.events = [] := opReach_pending_events n s₀ hreach hpend
    refine ⟨OpStep.cancelPending s₀ hpend, ?_⟩
    intro s₁ h₁
    obtain ⟨_, h2, h3, h4, _⟩ := opReach_invariant _ s₁ h₁ rfl
    refine ⟨h2 (by simp [hev]), h4 (by simp), h3 (by simp [hev])⟩
  · intro hproc hflag
    refine ⟨OpStep.observeCancel s₀ hproc hflag, ?_⟩
    intro s₁ h₁
    obtain ⟨_, _, h3, h4, h5⟩ := opReach_invariant s₀ s₁ h₁ hflag
    refine ⟨h4 (by rw [hproc]; simp), h3, ?_⟩
    intro hfin
    rcases h5 (Or.inl hproc) with hst | hst
    · rw [hst] at hfin
      exact absurd hfin (by simp [isFinalStatus])
    · exact hst

/-- C7 witness: the concrete two-chunk operation cancelled while pending,
and a concrete mid-flight state with the flag set. -/
theorem c7_witness :
    (OpStep (initOp 2)
        { (initOp 2) with status := .cancelled, cancelRequested := true } ∧
      OpEvent.fileStart ∉
        ({ (initOp 2) with status := .cancelled, cancelRequested := true } : OpState).events) ∧
    ({ status := .processing, cancelRequested := true, chunksLeft := 1,
       events := [.fileStart] } : OpState).status ≠ .completed := by
  refine ⟨⟨?_, ?_⟩, ?_⟩
  · exact ((c7_cancellation_semantics 2 (initOp 2)).1 .refl rfl).1
  · exact (((c7_cancellation_semantics 2 (initOp 2)).1 .refl rfl).2 _ .refl).1
  · exact (((c7_cancellation_semantics 0
      ⟨.processing, true, 1, [.fileStart]⟩).2 rfl rfl).2 _ .refl).1

/- ========================= claim C8 ========================= -/

/-- C8: one poll returns at most `max_events` events and removes exactly the
returned events from the queue; two successive polls split the queue into
disjoint consecutive segments, so no queued event is returned twice. -/
theorem c8_event_poll_drains (q : List Event) (n₁ n₂ : Nat) :
    (anidb_event_poll q n₁).1.length ≤ n₁ ∧
    (anidb_event_poll q n₁).1 ++ (anidb_event_poll q n₁).2 = q ∧
    (anidb_event_poll (anidb_event_poll q n₁).2 n₂).1.length ≤ n₂ ∧
    (anidb_event_poll (anidb_event_poll q n₁).2 n₂).1 ++
      (anidb_event_poll (anidb_event_poll q n₁).2 n₂).2 =
      (anidb_event_poll q n₁).2 ∧
    (q.Nodup → ∀ e ∈ (anidb_event_poll q n₁).1,
      e ∉ (anidb_event_poll (anidb_event_poll q n₁).2 n₂).1) := by
  refine ⟨List.length_take_le n₁ q, List.take_append_drop n₁ q,
    List.length_take_le n₂ _, List.take_append_drop n₂ _, ?_⟩
  intro hnd e he hmem
  have h2 : e ∈ q.drop n₁ := List.take_subset n₂ (q.drop n₁) hmem
  have hnd2 : (q.take n₁ ++ q.drop n₁).Nodup := by
    rw [List.take_append_drop n₁ q]
    exact hnd
  exact (List.nodup_append.mp hnd2).2.2 he h2

/-- C8 witness: with two distinct queued events and `max_events = 1`, the
event returned by the first poll is not returned by the second. -/
theorem c8_witness :
    Event.fileStart "a" ∉ (anidb_event_poll (anidb_event_poll
      [Event.fileStart "a", Event.fileComplete "a"] 1).2 1).1 :=
  (c8_event_poll_drains [Event.fileStart "a", Event.fileComplete "a"] 1 1).2.2.2.2
    (by decide) (Event.fileStart "a") (by decide)

/- ========================= claim C9 ========================= -/

/-- Discriminator for string and number JavaScript values. -/
def isStrOrNumValue : JsValue → Bool
  | .str _ => true
  | .num _ => true
  | _ => false

/-- Discriminator for number JavaScript values. -/
def isNumValue : JsValue → Bool
  | .num _ => true
  | _ => false

/-- Discriminator for array JavaScript values. -/
def isArrayValue : JsValue → Bool
  | .array _ => true
  | _ => false

/-- C9: the Node.js binding's algorithm parsing never yields an empty set
and never reports an error: every string that is not (case-insensitively)
one of the five known names parses as ED2K, and both
`Utils::ParseHashAlgorithms` and `ClientWrapper::ProcessFile` substitute the
one-element ED2K list whenever the caller supplies no valid algorithms. -/
theorem c9_algorithm_defaulting :
    (∀ s : String,
      lowerString s ∉ (["ed2k", "crc32", "md5", "sha1", "tth"] : List String) →
      ParseHashAlgorithm s = .ed2k) ∧
    (∀ v : JsValue, ParseHashAlgorithms v ≠ []) ∧
    (∀ fld : Option JsValue, wrapperParseAlgorithms fld ≠ []) ∧
    (∀ elems : List JsValue, (∀ e ∈ elems, isStrOrNumValue e = false) →
      ParseHashAlgorithms (.array elems) = [algCode .ed2k]) ∧
    wrapperParseAlgorithms none = [algCode .ed2k] ∧
    (∀ v : JsValue, isArrayValue v = false →
      wrapperParseAlgorithms (some v) = [algCode .ed2k]) ∧
    (∀ elems : List JsValue, (∀ e ∈ elems, isNumValue e = false) →
      wrapperParseAlgorithms (some (.array elems)) = [algCode .ed2k]) := by
  have keyP : ∀ l : List Int, (if l = [] then [algCode .ed2k] else l) ≠ [] := by
    intro l
    split
    · simp
    · assumption
  refine ⟨?_, ?_, ?_, ?_, rfl, ?_, ?_⟩
  · intro s hmem
    simp only [List.mem_cons, List.mem_singleton, not_or] at hmem
    obtain ⟨h1, h2, h3, h4, h5⟩ := hmem
    simp [ParseHashAlgorithm, h1, h2, h3, h4, h5]
  · intro v
    exact keyP _
  · intro fld
    exact keyP _
  · intro elems hall
    have hfm : elems.filterMap (fun e =>
        match e with
        | .str s => some (algCode (ParseHashAlgorithm s))
        | .num n => some (int32wrap n)
        | _ => none) = [] := by
      rw [List.filterMap_eq_nil_iff]
      intro e he
      have := hall e he
      cases e <;> simp [isStrOrNumValue] at this ⊢
    simp only [ParseHashAlgorithms]
    rw [hfm]
    simp
  · intro v hv
    cases v <;> simp [wrapperParseAlgorithms, isArrayValue] at hv ⊢
  · intro elems hall
    have hfm : elems.filterMap (fun e =>
        match e with
        | .num n => some (int32wrap n)
        | _ => none) = [] := by
      rw [List.filterMap_eq_nil_iff]
      intro e he
      have := hall e he
      cases e <;> simp [isNumValue] at this ⊢
    simp only [wrapperParseAlgorithms]
    rw [hfm]
    simp

/-- C9 witness: a concrete unrecognized string defaults to ED2K, and a
concrete array with no valid elements defaults to the one-element ED2K
list. -/
theorem c9_witness :
    ParseHashAlgorithm "bogus" = HashAlg.ed2k ∧
    ParseHashAlgorithms (.array [.other]) = [algCode .ed2k] :=
  ⟨c9_algorithm_defaulting.1 "bogus" (by decide),
   c9_algorithm_defaulting.2.2.2.1 [.other] (by
     intro e he
     simp only [List.mem_singleton] at he
     rw [he]
     rfl)⟩

/- ========================= claim C10 ========================= -/

/-- C10: the binding's name conversion round-trips on all five valid
algorithm values, and parsing is case-insensitive: two strings with the same
lower-casing parse to the same algorithm. -/
theorem c10_name_roundtrip :
    (∀ a : HashAlg, ParseHashAlgorithm (HashAlgorithmToString a) = a) ∧
    (∀ s t : String, lowerString s = lowerString t →
      ParseHashAlgorithm s = ParseHashAlgorithm t) := by
  constructor
  · intro a
    cases a <;> decide
  · intro s t h
    simp only [ParseHashAlgorithm]
    rw [h]

/-- C10 witness: parsing is case-insensitive on a concrete pair. -/
theorem c10_witness :
    ParseHashAlgorithm "MD5" = ParseHashAlgorithm "md5" :=
  c10_name_roundtrip.2 "MD5" "md5" (by decide)
